import Mathlib

/-!
Verification of the AT-command transaction engine of the esp-at test harness.

The definitions below are a shallow embedding of the Python transaction code:
* `ATBN.collect` / `ATBN.send_command` embed `ATBNTester.send_command`
  (src/atbn_tests/test_atbn_comprehensive.py, lines 132-187): flush the input
  buffer, write the command, then poll; each poll iteration either sees no
  pending input (`tick`), reads one raw line (`line raw`), or raises an
  I/O exception (`ioError`, handled by the `except` clause which returns
  `(False, [])`).  The wall-clock deadline is modelled by the finiteness of
  the event list: when the events are exhausted the deadline has elapsed.
* `ATBN.perfCollect` / `ATBN.send_at_command` embed
  `PerformanceTester.send_at_command` (src/atbn_tests/performance_test.py,
  lines 58-98), which does NOT flush the input buffer and joins the lines
  with a newline (with a `"TIMEOUT"` placeholder when nothing was read);
  the elapsed-time float it also returns is omitted.  An uncaught I/O
  exception is modelled as `Except.error`.
* `ATBN.utf8DecodeIgnore` embeds `bytes.decode('utf-8', errors='ignore')`
  as used by every `readline().decode('utf-8', errors='ignore').strip()`
  call: invalid byte sequences are dropped (maximal-subpart skipping).
* `ATBN.calculate_timeout_ms` embeds `calculate_timeout_ms`
  (src/atbn_tests/test_timeout_calculation.py, lines 7-31).
* `ATBN.parseDownloadFrame` embeds the `+LEN:(\d+),` / `+POST:(\d+),`
  regex extraction performed on the newline-joined response text
  (src/atbn_tests/test_atbn_spec_compliance.py lines 70-84,
  src/atbn_tests/performance_test.py lines 110-126): a marker match is the
  literal, a maximal nonempty digit run, then a comma; `re.search` yields
  the first match, `re.findall` all non-overlapping matches left to right.
-/

namespace ATBN

/-- One iteration of the polling loop of `send_command`: nothing waiting,
one raw line read, or an I/O exception raised by the transport. -/
inductive SerialEv where
  | tick : SerialEv
  | line : List Nat → SerialEv
  | ioError : SerialEv
deriving DecidableEq

/-- UTF-8 continuation byte test. -/
def isCont (b : Nat) : Bool := decide (0x80 ≤ b ∧ b ≤ 0xBF)

/-- Valid second byte of a three-byte UTF-8 sequence with lead `b`. -/
def contOk2 (b c1 : Nat) : Bool :=
  if b = 0xE0 then decide (0xA0 ≤ c1 ∧ c1 ≤ 0xBF)
  else if b = 0xED then decide (0x80 ≤ c1 ∧ c1 ≤ 0x9F)
  else isCont c1

/-- Valid second byte of a four-byte UTF-8 sequence with lead `b`. -/
def contOk3 (b c1 : Nat) : Bool :=
  if b = 0xF0 then decide (0x90 ≤ c1 ∧ c1 ≤ 0xBF)
  else if b = 0xF4 then decide (0x80 ≤ c1 ∧ c1 ≤ 0x8F)
  else isCont c1

/-- Embedding of Python `bytes.decode('utf-8', errors='ignore')`: decode
well-formed sequences, silently skip bytes that cannot start or complete
a valid sequence (no placeholder is inserted). -/
def utf8DecodeIgnore : List Nat → List Char
  | [] => []
  | b :: rest =>
    if b < 0x80 then Char.ofNat b :: utf8DecodeIgnore rest
    else if 0xC2 ≤ b ∧ b ≤ 0xDF then
      match rest with
      | [] => []
      | c1 :: rest1 =>
        if isCont c1 then
          Char.ofNat ((b - 0xC0) * 64 + (c1 - 0x80)) :: utf8DecodeIgnore rest1
        else utf8DecodeIgnore (c1 :: rest1)
    else if 0xE0 ≤ b ∧ b ≤ 0xEF then
      match rest with
      | [] => []
      | c1 :: rest1 =>
        if contOk2 b c1 then
          match rest1 with
          | [] => []
          | c2 :: rest2 =>
            if isCont c2 then
              Char.ofNat ((b - 0xE0) * 4096 + (c1 - 0x80) * 64 + (c2 - 0x80)) ::
                utf8DecodeIgnore rest2
            else utf8DecodeIgnore (c2 :: rest2)
        else utf8DecodeIgnore (c1 :: rest1)
    else if 0xF0 ≤ b ∧ b ≤ 0xF4 then
      match rest with
      | [] => []
      | c1 :: rest1 =>
        if contOk3 b c1 then
          match rest1 with
          | [] => []
          | c2 :: rest2 =>
            if isCont c2 then
              match rest2 with
              | [] => []
              | c3 :: rest3 =>
                if isCont c3 then
                  Char.ofNat ((b - 0xF0) * 262144 + (c1 - 0x80) * 4096 +
                      (c2 - 0x80) * 64 + (c3 - 0x80)) :: utf8DecodeIgnore rest3
                else utf8DecodeIgnore (c3 :: rest3)
            else utf8DecodeIgnore (c2 :: rest2)
        else utf8DecodeIgnore (c1 :: rest1)
    else utf8DecodeIgnore rest

/-- Whitespace stripped by Python `str.strip()` (ASCII range): space, tab,
newline, carriage return, vertical tab, form feed. -/
def pySpace (c : Char) : Bool :=
  c == ' ' || c == '\t' || c == '\n' || c == '\r' ||
    c == Char.ofNat 11 || c == Char.ofNat 12

/-- Strip leading and trailing whitespace from a character list
(Python `str.strip()`). -/
def stripChars (cs : List Char) : List Char :=
  ((cs.dropWhile pySpace).reverse.dropWhile pySpace).reverse

/-- The value of `readline().decode('utf-8', errors='ignore').strip()`
on the raw bytes of one line. -/
def readline_strip (raw : List Nat) : String :=
  String.mk (stripChars (utf8DecodeIgnore raw))

/-- Byte encoding of an ASCII string, for concrete test inputs. -/
def asciiBytes (s : String) : List Nat := s.data.map Char.toNat

/-- The four terminal reply tokens checked by
`if line in ['OK', 'ERROR', 'SEND OK', 'SEND FAIL']`. -/
def terminalTokens : List String := ["OK", "ERROR", "SEND OK", "SEND FAIL"]

/-- The success subset checked by `success = line in ['OK', 'SEND OK']`. -/
def successTokens : List String := ["OK", "SEND OK"]

/-- The response-collection loop of `ATBNTester.send_command`
(test_atbn_comprehensive.py lines 160-187).  `acc` holds the collected
lines in reverse.  Exhausting the events is the deadline elapsing
(`return False, response_lines`); an `ioError` event is the `except`
clause (`return False, []`). -/
def collect (ep : Bool) : List SerialEv → List String → Bool × List String
  | [], acc => (false, acc.reverse)
  | SerialEv.ioError :: _, _ => (false, [])
  | SerialEv.tick :: rest, acc => collect ep rest acc
  | SerialEv.line raw :: rest, acc =>
    let l := readline_strip raw
    if l = "" then collect ep rest acc
    else
      if ep = true ∧ l = ">" then (true, (l :: acc).reverse)
      else if l ∈ terminalTokens then (decide (l ∈ successTokens), (l :: acc).reverse)
      else collect ep rest (l :: acc)

/-- The serial connection state visible to the engine: the buffered,
not-yet-read input events. -/
structure SerialConn where
  buffer : List SerialEv
deriving DecidableEq

/-- `serial.Serial.reset_input_buffer()`: discard all buffered unread input. -/
def reset_input_buffer (_c : SerialConn) : SerialConn := ⟨[]⟩

/-- `ATBNTester.send_command`: clear the input buffer, write the command,
then run the collection loop over whatever is readable afterwards (the
remaining buffer followed by the new arrivals). -/
def send_command (c : SerialConn) (arrivals : List SerialEv)
    (expect_data_prompt : Bool) : Bool × List String :=
  let c2 := reset_input_buffer c
  collect expect_data_prompt (c2.buffer ++ arrivals) []

/-- Python `'\n'.join`. -/
def joinNL : List String → String
  | [] => ""
  | [l] => l
  | l :: ls => l ++ "\n" ++ joinNL ls

/-- The response loop of `PerformanceTester.send_at_command`
(performance_test.py lines 78-98): same terminal handling, no prompt
handling, no exception handler (an I/O error propagates), the lines are
joined with newlines and an empty collection times out as `"TIMEOUT"`. -/
def perfCollect : List SerialEv → List String → Except Unit (Bool × String)
  | [], acc => Except.ok (false, if acc.isEmpty then "TIMEOUT" else joinNL acc.reverse)
  | SerialEv.ioError :: _, _ => Except.error ()
  | SerialEv.tick :: rest, acc => perfCollect rest acc
  | SerialEv.line raw :: rest, acc =>
    let l := readline_strip raw
    if l = "" then perfCollect rest acc
    else if l ∈ terminalTokens then
      Except.ok (decide (l ∈ successTokens), joinNL (l :: acc).reverse)
    else perfCollect rest (l :: acc)

/-- `PerformanceTester.send_at_command`: writes the command WITHOUT
clearing the input buffer first, so the loop reads the stale buffered
events before the new arrivals. -/
def send_at_command (c : SerialConn) (arrivals : List SerialEv) :
    Except Unit (Bool × String) :=
  perfCollect (c.buffer ++ arrivals) []

/-- `calculate_timeout_ms` (test_timeout_calculation.py lines 7-31). -/
def calculate_timeout_ms (content_length : Nat) : Nat :=
  if content_length = 0 then 300000
  else
    let min_speed_bytes_per_sec := 50 * 1024
    let base_timeout_ms := 60000
    let max_timeout_ms := 3600000
    let min_timeout_ms := 300000
    let calculated0 := base_timeout_ms + content_length * 2000 / min_speed_bytes_per_sec
    let calculated1 := if calculated0 < min_timeout_ms then min_timeout_ms else calculated0
    let calculated2 := if calculated1 > max_timeout_ms then max_timeout_ms else calculated1
    calculated2

/-- Drop an expected literal from the head of the input, or fail. -/
def dropLit : List Char → List Char → Option (List Char)
  | [], cs => some cs
  | _ :: _, [] => none
  | l :: ls, c :: cs => if c = l then dropLit ls cs else none

/-- Numeric value of a decimal digit run (`int(match.group(1))`). -/
def digitsVal (ds : List Char) : Nat :=
  ds.foldl (fun a c => a * 10 + (c.toNat - 48)) 0

/-- Match the regex `lit(\d+),` at the very start of `cs`: the literal,
then a maximal nonempty digit run, then a comma.  Returns the captured
number and the remainder after the comma. -/
def matchMarker (lit : List Char) (cs : List Char) : Option (Nat × List Char) :=
  match dropLit lit cs with
  | none => none
  | some rest =>
    let ds := rest.takeWhile Char.isDigit
    let rest2 := rest.dropWhile Char.isDigit
    if ds ≠ [] ∧ rest2.head? = some ',' then some (digitsVal ds, rest2.tail) else none

/-- All non-overlapping matches of `lit(\d+),` scanning left to right
(`re.findall`); the fuel bounds the scan and is adequate whenever it is
at least the input length. -/
def scanMarks (lit : List Char) : Nat → List Char → List Nat
  | 0, _ => []
  | _ + 1, [] => []
  | fuel + 1, c :: cs =>
    match matchMarker lit (c :: cs) with
    | some (n, rest) => n :: scanMarks lit fuel rest
    | none => scanMarks lit fuel cs

/-- The first match of `lit(\d+),` (`re.search`). -/
def findMark (lit : List Char) : Nat → List Char → Option Nat
  | 0, _ => none
  | _ + 1, [] => none
  | fuel + 1, c :: cs =>
    match matchMarker lit (c :: cs) with
    | some (n, _) => some n
    | none => findMark lit fuel cs

/-- The structured framing data extracted from a download response. -/
@[ext] structure DownloadFrame where
  declaredLen : Option Nat
  chunks : List Nat
deriving DecidableEq

/-- The download-frame extraction: join the response lines with newlines
and apply `re.search(r'\+LEN:(\d+),', text)` and
`re.findall(r'\+POST:(\d+),', text)`. -/
def parseDownloadFrame (lines : List String) : DownloadFrame :=
  let txt := (joinNL lines).data
  { declaredLen := findMark ("+LEN:").data txt.length txt
    chunks := scanMarks ("+POST:").data txt.length txt }

/-- The `+POST:` chunk sizes found in one single line. -/
def linePosts (l : String) : List Nat :=
  scanMarks ("+POST:").data l.data.length l.data

/-- The first `+LEN:` capture found in one single line. -/
def lineLen (l : String) : Option Nat :=
  findMark ("+LEN:").data l.data.length l.data

/-- First-defined choice of two optional values. -/
def firstSome (x y : Option Nat) : Option Nat :=
  match x with
  | some n => some n
  | none => y

/-- Declared length obtained line by line, first match winning. -/
def specLen : List String → Option Nat
  | [] => none
  | l :: ls => firstSome (lineLen l) (specLen ls)

/-- Chunk sizes obtained line by line, order preserved. -/
def specPosts : List String → List Nat
  | [] => []
  | l :: ls => linePosts l ++ specPosts ls

/-- Python `str.strip()` on a string value. -/
def stripStr (s : String) : String := String.mk (stripChars s.data)

/-- An event at which the collection loop of `collect` neither stops nor
raises: a quiet poll, or a line whose decoded trimmed text is not a
terminal token and (when a prompt is expected) not the prompt. -/
def nonStopping (ep : Bool) : SerialEv → Prop
  | SerialEv.tick => True
  | SerialEv.ioError => False
  | SerialEv.line raw =>
    readline_strip raw ∉ terminalTokens ∧ (ep = true → readline_strip raw ≠ ">")

instance (ep : Bool) (e : SerialEv) : Decidable (nonStopping ep e) :=
  match e with
  | SerialEv.tick => Decidable.isTrue trivial
  | SerialEv.ioError => Decidable.isFalse (fun h => h)
  | SerialEv.line _ => inferInstanceAs (Decidable (_ ∧ _))

/-- The nonempty trimmed line carried by an event, if any. -/
def obsLine : SerialEv → Option String
  | SerialEv.line raw =>
    let l := readline_strip raw
    if l = "" then none else some l
  | _ => none

/-- All nonempty trimmed lines carried by a list of events, in order. -/
def obsLines (events : List SerialEv) : List String := events.filterMap obsLine

/-- Modelled from the spec: the contract sentence "the returned line
sequence always contains every line observed, in arrival order, including
the terminal line itself (if any)" — the nonempty trimmed lines in
arrival order, up to and including the first stopping line. -/
def observedUpTo (ep : Bool) : List SerialEv → List String
  | [] => []
  | SerialEv.tick :: rest => observedUpTo ep rest
  | SerialEv.ioError :: rest => observedUpTo ep rest
  | SerialEv.line raw :: rest =>
    let l := readline_strip raw
    if l = "" then observedUpTo ep rest
    else if (ep = true ∧ l = ">") ∨ l ∈ terminalTokens then [l]
    else l :: observedUpTo ep rest

/-- Modelled from the spec: the Line Reader sentence "decodes permissively,
substituting a placeholder for byte sequences that are not valid text" —
the same decoder but emitting U+FFFD for each rejected byte, as Python
`errors='replace'` would. -/
def utf8DecodeReplace : List Nat → List Char
  | [] => []
  | b :: rest =>
    if b < 0x80 then Char.ofNat b :: utf8DecodeReplace rest
    else if 0xC2 ≤ b ∧ b ≤ 0xDF then
      match rest with
      | [] => [Char.ofNat 0xFFFD]
      | c1 :: rest1 =>
        if isCont c1 then
          Char.ofNat ((b - 0xC0) * 64 + (c1 - 0x80)) :: utf8DecodeReplace rest1
        else Char.ofNat 0xFFFD :: utf8DecodeReplace (c1 :: rest1)
    else if 0xE0 ≤ b ∧ b ≤ 0xEF then
      match rest with
      | [] => [Char.ofNat 0xFFFD]
      | c1 :: rest1 =>
        if contOk2 b c1 then
          match rest1 with
          | [] => [Char.ofNat 0xFFFD]
          | c2 :: rest2 =>
            if isCont c2 then
              Char.ofNat ((b - 0xE0) * 4096 + (c1 - 0x80) * 64 + (c2 - 0x80)) ::
                utf8DecodeReplace rest2
            else Char.ofNat 0xFFFD :: utf8DecodeReplace (c2 :: rest2)
        else Char.ofNat 0xFFFD :: utf8DecodeReplace (c1 :: rest1)
    else if 0xF0 ≤ b ∧ b ≤ 0xF4 then
      match rest with
      | [] => [Char.ofNat 0xFFFD]
      | c1 :: rest1 =>
        if contOk3 b c1 then
          match rest1 with
          | [] => [Char.ofNat 0xFFFD]
          | c2 :: rest2 =>
            if isCont c2 then
              match rest2 with
              | [] => [Char.ofNat 0xFFFD]
              | c3 :: rest3 =>
                if isCont c3 then
                  Char.ofNat ((b - 0xF0) * 262144 + (c1 - 0x80) * 4096 +
                      (c2 - 0x80) * 64 + (c3 - 0x80)) :: utf8DecodeReplace rest3
                else Char.ofNat 0xFFFD :: utf8DecodeReplace (c3 :: rest3)
            else Char.ofNat 0xFFFD :: utf8DecodeReplace (c2 :: rest2)
        else Char.ofNat 0xFFFD :: utf8DecodeReplace (c1 :: rest1)
    else Char.ofNat 0xFFFD :: utf8DecodeReplace rest

/-! Helper lemmas about the collection loop. -/

theorem terminal_ne_empty {t : String} (h : t ∈ terminalTokens) : t ≠ "" := by
  simp only [terminalTokens, List.mem_cons, List.mem_singleton, List.not_mem_nil, or_false] at h
  rcases h with rfl | rfl | rfl | rfl <;> decide

theorem terminal_ne_prompt {t : String} (h : t ∈ terminalTokens) : t ≠ ">" := by
  simp only [terminalTokens, List.mem_cons, List.mem_singleton, List.not_mem_nil, or_false] at h
  rcases h with rfl | rfl | rfl | rfl <;> decide

theorem collect_line_empty {raw : List Nat} (ep : Bool) (rest : List SerialEv)
    (acc : List String) (h : readline_strip raw = "") :
    collect ep (SerialEv.line raw :: rest) acc = collect ep rest acc := by
  simp only [collect, h, if_pos]

theorem collect_line_cons {raw : List Nat} (ep : Bool) (rest : List SerialEv)
    (acc : List String) (h : readline_strip raw ≠ "")
    (hterm : readline_strip raw ∉ terminalTokens)
    (hp : ¬(ep = true ∧ readline_strip raw = ">")) :
    collect ep (SerialEv.line raw :: rest) acc
      = collect ep rest (readline_strip raw :: acc) := by
  simp only [collect, if_neg h, if_neg hp, if_neg hterm]

theorem collect_line_prompt {raw : List Nat} (rest : List SerialEv) (acc : List String)
    (hp : readline_strip raw = ">") :
    collect true (SerialEv.line raw :: rest) acc
      = (true, (readline_strip raw :: acc).reverse) := by
  have h : readline_strip raw ≠ "" := by rw [hp]; decide
  simp [collect, h, hp]

theorem collect_line_terminal {raw : List Nat} (ep : Bool) (rest : List SerialEv)
    (acc : List String) (hterm : readline_strip raw ∈ terminalTokens) :
    collect ep (SerialEv.line raw :: rest) acc
      = (decide (readline_strip raw ∈ successTokens), (readline_strip raw :: acc).reverse) := by
  have h : readline_strip raw ≠ "" := terminal_ne_empty hterm
  have hp : ¬(ep = true ∧ readline_strip raw = ">") := by
    rintro ⟨-, hgt⟩
    exact terminal_ne_prompt hterm hgt
  simp only [collect, if_neg h, if_neg hp, if_pos hterm]

theorem collect_line_fail {raw : List Nat} (ep : Bool) (rest : List SerialEv)
    (acc : List String) (hterm : readline_strip raw ∈ terminalTokens)
    (hns : readline_strip raw ∉ successTokens) :
    collect ep (SerialEv.line raw :: rest) acc
      = (false, (readline_strip raw :: acc).reverse) := by
  rw [collect_line_terminal ep rest acc hterm, decide_eq_false hns]

theorem obsLines_nil : obsLines [] = [] := rfl

theorem obsLines_cons_skip {e : SerialEv} (events : List SerialEv) (h : obsLine e = none) :
    obsLines (e :: events) = obsLines events := by
  simp [obsLines, List.filterMap_cons, h]

theorem obsLines_cons_line {raw : List Nat} (events : List SerialEv)
    (h : readline_strip raw ≠ "") :
    obsLines (SerialEv.line raw :: events) = readline_strip raw :: obsLines events := by
  simp [obsLines, List.filterMap_cons, obsLine, h]

theorem collect_append_nonstop (ep : Bool) :
    ∀ (pre rest : List SerialEv) (acc : List String),
      (∀ e ∈ pre, nonStopping ep e) →
      collect ep (pre ++ rest) acc = collect ep rest ((obsLines pre).reverse ++ acc)
  | [], rest, acc, _ => by simp [obsLines]
  | e :: pre, rest, acc, h => by
    have he : nonStopping ep e := h e (List.mem_cons_self e pre)
    have hrest : ∀ x ∈ pre, nonStopping ep x := fun x hx => h x (List.mem_cons_of_mem e hx)
    cases e with
    | tick =>
      rw [List.cons_append]
      show collect ep (pre ++ rest) acc = _
      rw [collect_append_nonstop ep pre rest acc hrest,
        obsLines_cons_skip pre (by rfl)]
    | ioError => exact absurd he (fun hf => hf)
    | line raw =>
      by_cases hl : readline_strip raw = ""
      · rw [List.cons_append, collect_line_empty ep (pre ++ rest) acc hl,
          collect_append_nonstop ep pre rest acc hrest,
          obsLines_cons_skip pre (by simp [obsLine, hl])]
      · obtain ⟨hterm, hpr⟩ := he
        have hp : ¬(ep = true ∧ readline_strip raw = ">") := by
          rintro ⟨hep, hgt⟩
          exact hpr hep hgt
        rw [List.cons_append, collect_line_cons ep (pre ++ rest) acc hl hterm hp,
          collect_append_nonstop ep pre rest _ hrest,
          obsLines_cons_line pre hl]
        simp [List.reverse_cons, List.append_assoc]

theorem collect_timeout (ep : Bool) (events : List SerialEv) (acc : List String)
    (h : ∀ e ∈ events, nonStopping ep e) :
    collect ep events acc = (false, acc.reverse ++ obsLines events) := by
  have h0 := collect_append_nonstop ep events [] acc h
  rw [List.append_nil] at h0
  rw [h0]
  simp [collect]

theorem collect_first_terminal (ep : Bool) (pre post : List SerialEv) (raw : List Nat)
    (acc : List String) (hpre : ∀ e ∈ pre, nonStopping ep e)
    (hterm : readline_strip raw ∈ terminalTokens) :
    collect ep (pre ++ SerialEv.line raw :: post) acc
      = (decide (readline_strip raw ∈ successTokens),
         acc.reverse ++ obsLines pre ++ [readline_strip raw]) := by
  rw [collect_append_nonstop ep pre _ acc hpre,
    collect_line_terminal ep post _ hterm]
  simp [List.reverse_cons, List.append_assoc]

theorem collect_first_prompt (pre post : List SerialEv) (raw : List Nat)
    (acc : List String) (hpre : ∀ e ∈ pre, nonStopping true e)
    (hp : readline_strip raw = ">") :
    collect true (pre ++ SerialEv.line raw :: post) acc
      = (true, acc.reverse ++ obsLines pre ++ [">"]) := by
  rw [collect_append_nonstop true pre _ acc hpre, collect_line_prompt post _ hp, hp]
  simp [List.reverse_cons, List.append_assoc]

theorem collect_acc_mem (ep : Bool) :
    ∀ (events : List SerialEv) (acc : List String) (a : String),
      SerialEv.ioError ∉ events → a ∈ acc → a ∈ (collect ep events acc).2
  | [], acc, a, _, ha => by simpa [collect] using ha
  | e :: rest, acc, a, hio, ha => by
    have hio1 : SerialEv.ioError ∉ rest := fun hx => hio (List.mem_cons_of_mem e hx)
    cases e with
    | tick => exact collect_acc_mem ep rest acc a hio1 ha
    | ioError => exact absurd (List.mem_cons_self _ _) hio
    | line raw =>
      by_cases hl : readline_strip raw = ""
      · rw [collect_line_empty ep rest acc hl]
        exact collect_acc_mem ep rest acc a hio1 ha
      · by_cases hp : ep = true ∧ readline_strip raw = ">"
        · obtain ⟨hep, hgt⟩ := hp
          subst hep
          rw [collect_line_prompt rest acc hgt]
          simp [List.mem_reverse, List.mem_cons, ha]
        · by_cases hterm : readline_strip raw ∈ terminalTokens
          · rw [collect_line_terminal ep rest acc hterm]
            simp [List.mem_reverse, List.mem_cons, ha]
          · rw [collect_line_cons ep rest acc hl hterm hp]
            exact collect_acc_mem ep rest _ a hio1 (List.mem_cons_of_mem _ ha)

theorem collect_snd_observed (ep : Bool) :
    ∀ (events : List SerialEv) (acc : List String),
      SerialEv.ioError ∉ events →
      (collect ep events acc).2 = acc.reverse ++ observedUpTo ep events
  | [], acc, _ => by simp [collect, observedUpTo]
  | e :: rest, acc, hio => by
    have hio1 : SerialEv.ioError ∉ rest := fun hx => hio (List.mem_cons_of_mem e hx)
    cases e with
    | tick =>
      show (collect ep rest acc).2 = _
      rw [collect_snd_observed ep rest acc hio1]
      rfl
    | ioError => exact absurd (List.mem_cons_self _ _) hio
    | line raw =>
      by_cases hl : readline_strip raw = ""
      · rw [collect_line_empty ep rest acc hl, collect_snd_observed ep rest acc hio1]
        simp [observedUpTo, hl]
      · by_cases hp : ep = true ∧ readline_strip raw = ">"
        · obtain ⟨hep, hgt⟩ := hp
          subst hep
          rw [collect_line_prompt rest acc hgt]
          simp [observedUpTo, hl, hgt]
        · by_cases hterm : readline_strip raw ∈ terminalTokens
          · rw [collect_line_terminal ep rest acc hterm]
            simp [observedUpTo, hl, hterm]
          · rw [collect_line_cons ep rest acc hl hterm hp,
              collect_snd_observed ep rest _ hio1]
            have hcond : ¬((ep = true ∧ readline_strip raw = ">")
                ∨ readline_strip raw ∈ terminalTokens) := by
              rintro (h1 | h2)
              · exact hp h1
              · exact hterm h2
            simp [observedUpTo, hl, hcond]

theorem collect_snd_sub (ep : Bool) (events : List SerialEv) :
    ∀ (acc : List String) (l : String), l ∈ (collect ep events acc).2 →
      l ∈ acc ∨ ∃ raw, SerialEv.line raw ∈ events ∧ readline_strip raw = l ∧ l ≠ "" := by
  induction events with
  | nil =>
    intro acc l hl
    left
    simpa [collect, List.mem_reverse] using hl
  | cons e rest ih =>
    intro acc l hl
    cases e with
    | tick =>
      rcases ih acc l hl with h | ⟨raw, hmem, hv, hne⟩
      · exact Or.inl h
      · exact Or.inr ⟨raw, List.mem_cons_of_mem _ hmem, hv, hne⟩
    | ioError => simp [collect] at hl
    | line raw0 =>
      by_cases hl0 : readline_strip raw0 = ""
      · rw [collect_line_empty ep rest acc hl0] at hl
        rcases ih acc l hl with h | ⟨raw, hmem, hv, hne⟩
        · exact Or.inl h
        · exact Or.inr ⟨raw, List.mem_cons_of_mem _ hmem, hv, hne⟩
      · by_cases hp : ep = true ∧ readline_strip raw0 = ">"
        · obtain ⟨hep, hgt⟩ := hp
          subst hep
          rw [collect_line_prompt rest acc hgt] at hl
          simp only [List.mem_reverse, List.mem_cons] at hl
          rcases hl with rfl | h
          · exact Or.inr ⟨raw0, List.mem_cons_self _ _, rfl, hl0⟩
          · exact Or.inl h
        · by_cases hterm : readline_strip raw0 ∈ terminalTokens
          · rw [collect_line_terminal ep rest acc hterm] at hl
            simp only [List.mem_reverse, List.mem_cons] at hl
            rcases hl with rfl | h
            · exact Or.inr ⟨raw0, List.mem_cons_self _ _, rfl, hl0⟩
            · exact Or.inl h
          · rw [collect_line_cons ep rest acc hl0 hterm hp] at hl
            rcases ih _ l hl with h | ⟨raw, hmem, hv, hne⟩
            · rcases List.mem_cons.mp h with rfl | h2
              · exact Or.inr ⟨raw0, List.mem_cons_self _ _, rfl, hl0⟩
              · exact Or.inl h2
            · exact Or.inr ⟨raw, List.mem_cons_of_mem _ hmem, hv, hne⟩

/-! Helper lemmas about stripping. -/

theorem dropWhile_head_false {p : Char → Bool} {l : List Char} :
    ∀ {x : Char} {t : List Char}, l.dropWhile p = x :: t → p x = false := by
  induction l with
  | nil => intro x t h; simp [List.dropWhile] at h
  | cons a l ih =>
    intro x t h
    cases hpa : p a with
    | true =>
      rw [List.dropWhile_cons_of_pos hpa] at h
      exact ih h
    | false =>
      rw [List.dropWhile_cons_of_neg (by simp [hpa])] at h
      cases h
      exact hpa

theorem dropWhile_dropWhile_same {p : Char → Bool} (l : List Char) :
    (l.dropWhile p).dropWhile p = l.dropWhile p := by
  cases h : l.dropWhile p with
  | nil => rfl
  | cons x t =>
    rw [List.dropWhile_cons_of_neg (by simp [dropWhile_head_false h])]

theorem dropWhile_suffix_exists {p : Char → Bool} :
    ∀ l : List Char, ∃ s, l = s ++ l.dropWhile p
  | [] => ⟨[], rfl⟩
  | a :: l => by
    cases hp : p a with
    | true =>
      obtain ⟨s, hs⟩ := dropWhile_suffix_exists (p := p) l
      exact ⟨a :: s, by rw [List.dropWhile_cons_of_pos hp, List.cons_append, ← hs]⟩
    | false =>
      exact ⟨[], by rw [List.dropWhile_cons_of_neg (by simp [hp]), List.nil_append]⟩

theorem dropWhile_after_rtrim {p : Char → Bool} (l : List Char) (hl : l.dropWhile p = l) :
    ((l.reverse.dropWhile p).reverse).dropWhile p = (l.reverse.dropWhile p).reverse := by
  cases hrev : (l.reverse.dropWhile p).reverse with
  | nil => rfl
  | cons x t =>
    obtain ⟨s, hs⟩ := dropWhile_suffix_exists (p := p) l.reverse
    have hlx : l = x :: (t ++ s.reverse) := by
      calc l = l.reverse.reverse := (List.reverse_reverse l).symm
        _ = (s ++ l.reverse.dropWhile p).reverse := by rw [← hs]
        _ = (l.reverse.dropWhile p).reverse ++ s.reverse := by rw [List.reverse_append]
        _ = (x :: t) ++ s.reverse := by rw [hrev]
        _ = x :: (t ++ s.reverse) := rfl
    have hx : p x = false :=
      dropWhile_head_false (show l.dropWhile p = x :: (t ++ s.reverse) by rw [hl]; exact hlx)
    rw [List.dropWhile_cons_of_neg (by simp [hx])]

theorem stripChars_idem (cs : List Char) : stripChars (stripChars cs) = stripChars cs := by
  unfold stripChars
  rw [dropWhile_after_rtrim (cs.dropWhile pySpace) (dropWhile_dropWhile_same cs),
    List.reverse_reverse, dropWhile_dropWhile_same]

theorem stripStr_readline (raw : List Nat) :
    stripStr (readline_strip raw) = readline_strip raw := by
  show String.mk (stripChars (stripChars (utf8DecodeIgnore raw)))
      = String.mk (stripChars (utf8DecodeIgnore raw))
  rw [stripChars_idem]

theorem utf8DecodeIgnore_ascii :
    ∀ bytes : List Nat, (∀ b ∈ bytes, b < 0x80) →
      utf8DecodeIgnore bytes = bytes.map Char.ofNat
  | [], _ => rfl
  | b :: rest, h => by
    have hb : b < 0x80 := h b (List.mem_cons_self _ _)
    have hrest : ∀ x ∈ rest, x < 0x80 := fun x hx => h x (List.mem_cons_of_mem _ hx)
    rw [List.map_cons, ← utf8DecodeIgnore_ascii rest hrest, utf8DecodeIgnore.eq_def]
    simp [hb]

/-! Claim theorems. -/

/-- Claim C1: for every transaction, line collection terminates at the first
received line whose trimmed text equals one of the four terminal tokens
(independently of any later events), the transaction classifies success
exactly when that line is `OK` or `SEND OK`, and in particular the line
sequence `["+GMR line", "OK"]` classifies success while `["ERROR"]`
classifies failure. -/
theorem send_command_terminal_classification (ep : Bool) (pre post : List SerialEv)
    (raw : List Nat) (hpre : ∀ e ∈ pre, nonStopping ep e)
    (hterm : readline_strip raw ∈ terminalTokens) :
    send_command ⟨[]⟩ (pre ++ SerialEv.line raw :: post) ep
      = (decide (readline_strip raw = "OK" ∨ readline_strip raw = "SEND OK"),
         obsLines pre ++ [readline_strip raw])
    ∧ send_command ⟨[]⟩
        [SerialEv.line (asciiBytes "+GMR line"), SerialEv.line (asciiBytes "OK")] false
      = (true, ["+GMR line", "OK"])
    ∧ send_command ⟨[]⟩ [SerialEv.line (asciiBytes "ERROR")] false = (false, ["ERROR"]) := by
  refine ⟨?_, by decide, by decide⟩
  show collect ep (pre ++ SerialEv.line raw :: post) [] = _
  rw [collect_first_terminal ep pre post raw [] hpre hterm]
  have hiff : readline_strip raw ∈ successTokens
      ↔ (readline_strip raw = "OK" ∨ readline_strip raw = "SEND OK") := by
    simp [successTokens]
  have hdec : decide (readline_strip raw ∈ successTokens)
      = decide (readline_strip raw = "OK" ∨ readline_strip raw = "SEND OK") :=
    decide_eq_decide.mpr hiff
  rw [hdec]
  simp

theorem send_command_terminal_classification_witness :
    send_command ⟨[]⟩ ([SerialEv.tick] ++ SerialEv.line (asciiBytes "SEND FAIL")
        :: [SerialEv.line (asciiBytes "OK")]) false
      = (decide (readline_strip (asciiBytes "SEND FAIL") = "OK"
          ∨ readline_strip (asciiBytes "SEND FAIL") = "SEND OK"),
         obsLines [SerialEv.tick] ++ [readline_strip (asciiBytes "SEND FAIL")])
    ∧ send_command ⟨[]⟩
        [SerialEv.line (asciiBytes "+GMR line"), SerialEv.line (asciiBytes "OK")] false
      = (true, ["+GMR line", "OK"])
    ∧ send_command ⟨[]⟩ [SerialEv.line (asciiBytes "ERROR")] false = (false, ["ERROR"]) :=
  send_command_terminal_classification false [SerialEv.tick] [SerialEv.line (asciiBytes "OK")]
    (asciiBytes "SEND FAIL") (by decide) (by decide)

/-- Claim C2: with `expect_data_prompt` set, as soon as a trimmed line is
exactly `">"` the engine returns `(success, lines)` immediately, the prompt
line included, regardless of any later events in the same call (the result
does not depend on `post`, so no later `OK`/`ERROR` is waited for). -/
theorem send_command_prompt_short_circuit (pre post : List SerialEv) (raw : List Nat)
    (hpre : ∀ e ∈ pre, nonStopping true e) (hp : readline_strip raw = ">") :
    send_command ⟨[]⟩ (pre ++ SerialEv.line raw :: post) true
      = (true, obsLines pre ++ [">"]) := by
  show collect true (pre ++ SerialEv.line raw :: post) [] = _
  rw [collect_first_prompt pre post raw [] hpre hp]
  simp

theorem send_command_prompt_short_circuit_witness :
    send_command ⟨[]⟩ ([] ++ SerialEv.line (asciiBytes ">")
        :: [SerialEv.line (asciiBytes "OK"), SerialEv.line (asciiBytes "ERROR")]) true
      = (true, obsLines [] ++ [">"]) :=
  send_command_prompt_short_circuit []
    [SerialEv.line (asciiBytes "OK"), SerialEv.line (asciiBytes "ERROR")]
    (asciiBytes ">") (by decide) (by decide)

/-- Claim C10: with `expect_data_prompt` false, a line that is exactly `">"`
does not terminate collection: it is appended as an ordinary response line
and the loop continues with the remaining events (and when no I/O error
follows, the prompt line is present in the returned sequence). -/
theorem prompt_line_ordinary_without_flag (pre post : List SerialEv) (raw : List Nat)
    (hpre : ∀ e ∈ pre, nonStopping false e) (hp : readline_strip raw = ">") :
    collect false (pre ++ SerialEv.line raw :: post) []
      = collect false post ((">" : String) :: (obsLines pre).reverse)
    ∧ (SerialEv.ioError ∉ post →
        (">" : String) ∈ (collect false (pre ++ SerialEv.line raw :: post) []).2) := by
  have h1 : collect false (pre ++ SerialEv.line raw :: post) []
      = collect false post ((">" : String) :: (obsLines pre).reverse) := by
    rw [collect_append_nonstop false pre _ [] hpre,
      collect_line_cons false post _ (by rw [hp]; decide) (by rw [hp]; decide)
        (by rintro ⟨h, -⟩; exact absurd h (by decide)), hp]
    simp
  refine ⟨h1, fun hio => ?_⟩
  rw [h1]
  exact collect_acc_mem false post _ ">" hio (List.mem_cons_self _ _)

theorem prompt_line_ordinary_without_flag_witness :
    (collect false ([] ++ SerialEv.line (asciiBytes ">") :: [SerialEv.line (asciiBytes "OK")]) []
      = collect false [SerialEv.line (asciiBytes "OK")] ((">" : String) :: (obsLines []).reverse))
    ∧ (">" : String) ∈ (collect false ([] ++ SerialEv.line (asciiBytes ">")
        :: [SerialEv.line (asciiBytes "OK")]) []).2 :=
  ⟨(prompt_line_ordinary_without_flag [] [SerialEv.line (asciiBytes "OK")] (asciiBytes ">")
      (by decide) (by decide)).1,
   (prompt_line_ordinary_without_flag [] [SerialEv.line (asciiBytes "OK")] (asciiBytes ">")
      (by decide) (by decide)).2 (by decide)⟩

/-- Claim C3 (amended): for every transaction whose exchange raises no
transport-level I/O exception, the returned line sequence is exactly every
nonempty trimmed line observed, in arrival order, up to and including the
terminal (or prompt) line; on the exception path the code instead returns
`(False, [])`, discarding the lines already observed. -/
theorem lines_match_observed_without_io_failure (ep : Bool) (events : List SerialEv)
    (h : SerialEv.ioError ∉ events) :
    (send_command ⟨[]⟩ events ep).2 = observedUpTo ep events := by
  show (collect ep events []).2 = _
  rw [collect_snd_observed ep events [] h]
  simp

theorem lines_match_observed_without_io_failure_witness :
    (send_command ⟨[]⟩ [SerialEv.line (asciiBytes "+GMR v1"), SerialEv.tick,
        SerialEv.line (asciiBytes "OK"), SerialEv.line (asciiBytes "LATE")] false).2
      = observedUpTo false [SerialEv.line (asciiBytes "+GMR v1"), SerialEv.tick,
        SerialEv.line (asciiBytes "OK"), SerialEv.line (asciiBytes "LATE")] :=
  lines_match_observed_without_io_failure false _ (by decide)

/-- Claim C3 counterexample: a nonempty line `"+DATA"` is observed and
appended, but the I/O-exception path returns `(False, [])`, silently
dropping it from the returned sequence. -/
theorem io_failure_drops_observed_line :
    send_command ⟨[]⟩ [SerialEv.line (asciiBytes "+DATA"), SerialEv.ioError] false
      = ((false, []) : Bool × List String)
    ∧ readline_strip (asciiBytes "+DATA") = "+DATA" :=
  ⟨by decide, by decide⟩

/-- Claim C4 (amended): a transaction that ends in deadline expiry, or in a
device `ERROR`/`SEND FAIL`, returns all response lines collected up to that
point; a transport-level I/O failure, however, returns an empty line list,
discarding the partial output. -/
theorem timeout_and_error_preserve_lines (ep : Bool) :
    (∀ events : List SerialEv, (∀ e ∈ events, nonStopping ep e) →
      send_command ⟨[]⟩ events ep = (false, obsLines events))
    ∧ (∀ (pre post : List SerialEv) (raw : List Nat),
        (∀ e ∈ pre, nonStopping ep e) →
        readline_strip raw ∈ (["ERROR", "SEND FAIL"] : List String) →
        send_command ⟨[]⟩ (pre ++ SerialEv.line raw :: post) ep
          = (false, obsLines pre ++ [readline_strip raw])) := by
  constructor
  · intro events h
    show collect ep events [] = _
    rw [collect_timeout ep events [] h]
    simp
  · intro pre post raw hpre hfail
    have hfail2 : readline_strip raw = "ERROR" ∨ readline_strip raw = "SEND FAIL" := by
      simpa using hfail
    have hterm : readline_strip raw ∈ terminalTokens := by
      rcases hfail2 with h | h <;> rw [h] <;> decide
    have hns : readline_strip raw ∉ successTokens := by
      rcases hfail2 with h | h <;> rw [h] <;> decide
    show collect ep (pre ++ SerialEv.line raw :: post) [] = _
    rw [collect_append_nonstop ep pre _ [] hpre, collect_line_fail ep post _ hterm hns]
    simp

theorem timeout_and_error_preserve_lines_witness :
    send_command ⟨[]⟩ [SerialEv.line (asciiBytes "+PART"), SerialEv.tick] false
      = (false, obsLines [SerialEv.line (asciiBytes "+PART"), SerialEv.tick])
    ∧ send_command ⟨[]⟩ ([SerialEv.line (asciiBytes "+BODY")]
        ++ SerialEv.line (asciiBytes "SEND FAIL") :: []) false
      = (false, obsLines [SerialEv.line (asciiBytes "+BODY")]
          ++ [readline_strip (asciiBytes "SEND FAIL")]) :=
  ⟨(timeout_and_error_preserve_lines false).1 _ (by decide),
   (timeout_and_error_preserve_lines false).2 [SerialEv.line (asciiBytes "+BODY")] []
     _ (by decide) (by decide)⟩

/-- Claim C4 counterexample: a transport-level I/O failure after `"+PARTIAL"`
was collected returns `(False, [])` — the partial output is discarded, not
carried in the result. -/
theorem io_failure_discards_partial_lines :
    send_command ⟨[]⟩ [SerialEv.line (asciiBytes "+PARTIAL"), SerialEv.ioError] false
      = ((false, []) : Bool × List String)
    ∧ readline_strip (asciiBytes "+PARTIAL") = "+PARTIAL" :=
  ⟨by decide, by decide⟩

/-- Claim C5 (amended): the returned value is only a success flag plus the
line list, so failure causes are distinguishable only through the lines: a
deadline expiry yields lines containing no terminal token, while a device
`ERROR`/`SEND FAIL` (or any terminal) yields its token as the last returned
line; there is no distinct transport-failure outcome — an I/O failure
returns `(False, [])`, the same value as a timeout that collected nothing. -/
theorem error_and_timeout_results_distinguishable :
    (∀ events : List SerialEv, (∀ e ∈ events, nonStopping false e) →
      ∀ l ∈ (send_command ⟨[]⟩ events false).2, l ∉ terminalTokens)
    ∧ (∀ (pre post : List SerialEv) (raw : List Nat),
        (∀ e ∈ pre, nonStopping false e) →
        readline_strip raw ∈ terminalTokens →
        (send_command ⟨[]⟩ (pre ++ SerialEv.line raw :: post) false).2.getLast?
          = some (readline_strip raw)) := by
  constructor
  · intro events h l hl
    have h2 : send_command ⟨[]⟩ events false = (false, obsLines events) := by
      show collect false events [] = _
      rw [collect_timeout false events [] h]
      simp
    rw [h2] at hl
    obtain ⟨e, he, hfe⟩ := List.mem_filterMap.mp hl
    cases e with
    | tick => simp [obsLine] at hfe
    | ioError => simp [obsLine] at hfe
    | line raw =>
      obtain ⟨hterm, -⟩ := h _ he
      have hv : readline_strip raw = l := by
        by_cases hz : readline_strip raw = ""
        · simp [obsLine, hz] at hfe
        · simpa [obsLine, hz] using hfe
      rwa [← hv]
  · intro pre post raw hpre hterm
    have h2 : send_command ⟨[]⟩ (pre ++ SerialEv.line raw :: post) false
        = (decide (readline_strip raw ∈ successTokens),
           obsLines pre ++ [readline_strip raw]) := by
      show collect false (pre ++ SerialEv.line raw :: post) [] = _
      rw [collect_first_terminal false pre post raw [] hpre hterm]
      simp
    rw [h2]
    exact List.getLast?_concat _

theorem error_and_timeout_results_distinguishable_witness :
    (("+WAIT" : String) ∉ terminalTokens)
    ∧ (send_command ⟨[]⟩ ([] ++ SerialEv.line (asciiBytes "ERROR") :: []) false).2.getLast?
      = some (readline_strip (asciiBytes "ERROR")) :=
  ⟨error_and_timeout_results_distinguishable.1 [SerialEv.line (asciiBytes "+WAIT")]
     (by decide) "+WAIT" (by decide),
   error_and_timeout_results_distinguishable.2 [] [] (asciiBytes "ERROR")
     (by decide) (by decide)⟩

/-- Claim C5 counterexample: a transport-level I/O failure and a deadline
expiry that collected nothing return the identical value `(False, [])` —
a caller cannot tell them apart by inspecting the returned value. -/
theorem transport_failure_indistinguishable_from_timeout :
    send_command ⟨[]⟩ [SerialEv.ioError] false = send_command ⟨[]⟩ [SerialEv.tick] false
    ∧ send_command ⟨[]⟩ [SerialEv.ioError] false = ((false, []) : Bool × List String) :=
  ⟨rfl, rfl⟩

/-- Claim C8 (amended): `ATBNTester.send_command` clears the input buffer
immediately before writing, so its result does not depend on the stale
buffer contents and every returned line comes from the new arrivals;
`PerformanceTester.send_at_command`, however, writes without flushing, so
stale buffered bytes leak into the response of the new command. -/
theorem send_command_ignores_stale_buffer (c : SerialConn) (arrivals : List SerialEv)
    (ep : Bool) :
    send_command c arrivals ep = send_command ⟨[]⟩ arrivals ep
    ∧ ∀ l ∈ (send_command c arrivals ep).2,
        ∃ raw, SerialEv.line raw ∈ arrivals ∧ readline_strip raw = l ∧ l ≠ "" := by
  refine ⟨rfl, fun l hl => ?_⟩
  have hl2 : l ∈ (collect ep arrivals []).2 := hl
  rcases collect_snd_sub ep arrivals [] l hl2 with h | h
  · simp at h
  · exact h

theorem send_command_ignores_stale_buffer_witness :
    (send_command ⟨[SerialEv.line (asciiBytes "STALE"), SerialEv.line (asciiBytes "OK")]⟩
        [SerialEv.line (asciiBytes "+NEW"), SerialEv.line (asciiBytes "OK")] false
      = send_command ⟨[]⟩ [SerialEv.line (asciiBytes "+NEW"), SerialEv.line (asciiBytes "OK")]
          false)
    ∧ ∃ raw, SerialEv.line raw
        ∈ [SerialEv.line (asciiBytes "+NEW"), SerialEv.line (asciiBytes "OK")]
      ∧ readline_strip raw = "+NEW" ∧ ("+NEW" : String) ≠ "" :=
  ⟨(send_command_ignores_stale_buffer
      ⟨[SerialEv.line (asciiBytes "STALE"), SerialEv.line (asciiBytes "OK")]⟩
      [SerialEv.line (asciiBytes "+NEW"), SerialEv.line (asciiBytes "OK")] false).1,
   (send_command_ignores_stale_buffer
      ⟨[SerialEv.line (asciiBytes "STALE"), SerialEv.line (asciiBytes "OK")]⟩
      [SerialEv.line (asciiBytes "+NEW"), SerialEv.line (asciiBytes "OK")] false).2
     "+NEW" (by decide)⟩

/-- Claim C8 counterexample: with a stale `"OK"` left in the buffer,
`PerformanceTester.send_at_command` reports success `"OK"` for the new
command without ever reading the device's real reply (`"+REAL"` is absent),
while the same arrivals on a clean buffer yield the real response. -/
theorem perf_send_leaks_stale_input :
    send_at_command ⟨[SerialEv.line (asciiBytes "OK")]⟩
        [SerialEv.line (asciiBytes "+REAL"), SerialEv.line (asciiBytes "OK")]
      = Except.ok (true, "OK")
    ∧ send_at_command ⟨[]⟩ [SerialEv.line (asciiBytes "+REAL"), SerialEv.line (asciiBytes "OK")]
      = Except.ok (true, "+REAL\nOK") :=
  ⟨rfl, rfl⟩

/-- Claim C9 (amended): line decoding never fails on malformed bytes —
invalid byte sequences are silently dropped (`errors='ignore'`), not
replaced by a placeholder; well-formed ASCII decodes to itself, every
returned line is trimmed (stripping it again is the identity), and an
empty post-trim result is never appended to the response sequence. -/
theorem line_decoding_permissive :
    (∀ bytes : List Nat, (∀ b ∈ bytes, b < 0x80) →
      utf8DecodeIgnore bytes = bytes.map Char.ofNat)
    ∧ (∀ (ep : Bool) (events : List SerialEv),
        ∀ l ∈ (send_command ⟨[]⟩ events ep).2, l ≠ "" ∧ stripStr l = l) := by
  refine ⟨utf8DecodeIgnore_ascii, fun ep events l hl => ?_⟩
  have hl2 : l ∈ (collect ep events []).2 := hl
  rcases collect_snd_sub ep events [] l hl2 with h | ⟨raw, -, hv, hne⟩
  · simp at h
  · refine ⟨hne, ?_⟩
    rw [← hv]
    exact stripStr_readline raw

theorem line_decoding_permissive_witness :
    utf8DecodeIgnore [72, 73] = [72, 73].map Char.ofNat
    ∧ (("OK" : String) ≠ "" ∧ stripStr "OK" = "OK") :=
  ⟨line_decoding_permissive.1 [72, 73] (by decide),
   line_decoding_permissive.2 false [SerialEv.line (asciiBytes "OK")] "OK" (by decide)⟩

/-- Claim C9 counterexample: the invalid byte `0xFF` before `"A"` is
dropped by the decoder — the result is exactly `['A']`, with no placeholder
substituted, unlike the placeholder decoding the claim describes. -/
theorem decode_drops_invalid_bytes_no_placeholder :
    utf8DecodeIgnore [255, 65] = [Char.ofNat 65]
    ∧ utf8DecodeIgnore [255, 65] ≠ utf8DecodeReplace [255, 65]
    ∧ utf8DecodeReplace [255, 65] = [Char.ofNat 0xFFFD, Char.ofNat 65] :=
  ⟨by decide, by decide, by decide⟩

/-- Claim C6: `calculate_timeout_ms` maps 0 to exactly 300000 ms, every
positive `n` to `max 300000 (min 3600000 (60000 + n*2000/51200))` ms, and
in particular maps 1 MiB to the 5-minute minimum and 1 GiB to the
60-minute maximum. -/
theorem calculate_timeout_ms_spec (n : Nat) (hn : 0 < n) :
    calculate_timeout_ms 0 = 300000
    ∧ calculate_timeout_ms n = max 300000 (min 3600000 (60000 + n * 2000 / 51200))
    ∧ calculate_timeout_ms (2 ^ 20) = 300000
    ∧ calculate_timeout_ms (2 ^ 30) = 3600000 := by
  refine ⟨rfl, ?_, by decide, by decide⟩
  unfold calculate_timeout_ms
  rw [if_neg (Nat.pos_iff_ne_zero.mp hn)]
  dsimp only
  split_ifs <;> omega

theorem calculate_timeout_ms_spec_witness :
    calculate_timeout_ms 1000000000
      = max 300000 (min 3600000 (60000 + 1000000000 * 2000 / 51200)) :=
  (calculate_timeout_ms_spec 1000000000 (by norm_num)).2.1

/-! Helper lemmas for the download-frame parser. -/

theorem dropLit_length : ∀ (lit cs rest : List Char),
    dropLit lit cs = some rest → rest.length ≤ cs.length
  | [], cs, rest, h => by
    simp [dropLit] at h
    rw [h]
  | _ :: _, [], rest, h => by simp [dropLit] at h
  | l :: ls, c :: cs, rest, h => by
    by_cases hc : c = l
    · simp only [dropLit, if_pos hc] at h
      exact Nat.le_succ_of_le (dropLit_length ls cs rest h)
    · simp [dropLit, hc] at h

theorem dropLit_append : ∀ (lit cs rest zs : List Char),
    dropLit lit cs = some rest → dropLit lit (cs ++ zs) = some (rest ++ zs)
  | [], cs, rest, zs, h => by
    simp [dropLit] at h
    simp [dropLit, h]
  | _ :: _, [], rest, zs, h => by simp [dropLit] at h
  | l :: ls, c :: cs, rest, zs, h => by
    by_cases hc : c = l
    · simp only [dropLit, if_pos hc] at h
      simp only [List.cons_append, dropLit, if_pos hc]
      exact dropLit_append ls cs rest zs h
    · simp [dropLit, hc] at h

theorem dropLit_none_newline : ∀ (lit cs zs : List Char), ('\n' : Char) ∉ lit →
    dropLit lit cs = none → dropLit lit (cs ++ '\n' :: zs) = none
  | [], cs, zs, _, h => by simp [dropLit] at h
  | l :: ls, [], zs, hnl, _ => by
    have hne : ('\n' : Char) ≠ l := fun he => hnl (he ▸ List.mem_cons_self l ls)
    simp [dropLit, hne]
  | l :: ls, c :: cs, zs, hnl, h => by
    by_cases hc : c = l
    · simp only [dropLit, if_pos hc] at h
      simp only [List.cons_append, dropLit, if_pos hc]
      exact dropLit_none_newline ls cs zs (fun hx => hnl (List.mem_cons_of_mem l hx)) h
    · simp only [List.cons_append, dropLit, if_neg hc]

theorem takeWhile_append_stop {p : Char → Bool} :
    ∀ (l : List Char) {x : Char} {t : List Char} (zs : List Char),
      l.dropWhile p = x :: t →
      (l ++ zs).takeWhile p = l.takeWhile p ∧ (l ++ zs).dropWhile p = x :: (t ++ zs)
  | [], x, t, zs, h => by simp [List.dropWhile] at h
  | a :: l, x, t, zs, h => by
    cases hpa : p a with
    | true =>
      rw [List.dropWhile_cons_of_pos hpa] at h
      obtain ⟨h1, h2⟩ := takeWhile_append_stop l zs h
      refine ⟨?_, ?_⟩
      · rw [List.cons_append, List.takeWhile_cons_of_pos hpa,
          List.takeWhile_cons_of_pos hpa, h1]
      · rw [List.cons_append, List.dropWhile_cons_of_pos hpa, h2]
    | false =>
      rw [List.dropWhile_cons_of_neg (by simp [hpa])] at h
      cases h
      refine ⟨?_, ?_⟩
      · rw [List.cons_append, List.takeWhile_cons_of_neg (by simp [hpa]),
          List.takeWhile_cons_of_neg (by simp [hpa])]
      · rw [List.cons_append, List.dropWhile_cons_of_neg (by simp [hpa])]

theorem takeWhile_append_all {p : Char → Bool} :
    ∀ (l zs : List Char), l.dropWhile p = [] →
      (l ++ zs).takeWhile p = l ++ zs.takeWhile p ∧ (l ++ zs).dropWhile p = zs.dropWhile p
  | [], zs, _ => by simp
  | a :: l, zs, h => by
    cases hpa : p a with
    | true =>
      rw [List.dropWhile_cons_of_pos hpa] at h
      obtain ⟨h1, h2⟩ := takeWhile_append_all l zs h
      refine ⟨?_, ?_⟩
      · rw [List.cons_append, List.takeWhile_cons_of_pos hpa, h1, List.cons_append]
      · rw [List.cons_append, List.dropWhile_cons_of_pos hpa, h2]
    | false =>
      rw [List.dropWhile_cons_of_neg (by simp [hpa])] at h
      exact absurd h (by simp)

theorem matchMarker_rest_length {lit cs : List Char} {n : Nat} {rest : List Char}
    (h : matchMarker lit cs = some (n, rest)) : rest.length < cs.length := by
  simp only [matchMarker] at h
  cases hdl : dropLit lit cs with
  | none =>
    simp only [hdl] at h
    exact Option.noConfusion h
  | some r0 =>
    simp only [hdl] at h
    by_cases hcond : r0.takeWhile Char.isDigit ≠ []
        ∧ (r0.dropWhile Char.isDigit).head? = some ','
    · rw [if_pos hcond] at h
      simp only [Option.some.injEq, Prod.mk.injEq] at h
      obtain ⟨-, hrest⟩ := h
      obtain ⟨-, hhead⟩ := hcond
      have hsplit := List.takeWhile_append_dropWhile Char.isDigit r0
      have hlen := dropLit_length lit cs r0 hdl
      cases hdw : r0.dropWhile Char.isDigit with
      | nil => rw [hdw] at hhead; simp at hhead
      | cons x t =>
        rw [hdw] at hrest hsplit
        have ht : t = rest := by simpa using hrest
        subst ht
        have hsl := congrArg List.length hsplit
        simp only [List.length_append, List.length_cons] at hsl
        omega
    · rw [if_neg hcond] at h
      exact Option.noConfusion h

theorem matchMarker_some_append {lit cs : List Char} {n : Nat} {rest : List Char}
    (h : matchMarker lit cs = some (n, rest)) (zs : List Char) :
    matchMarker lit (cs ++ zs) = some (n, rest ++ zs) := by
  simp only [matchMarker] at h ⊢
  cases hdl : dropLit lit cs with
  | none =>
    simp only [hdl] at h
    exact Option.noConfusion h
  | some r0 =>
    simp only [hdl] at h
    simp only [dropLit_append lit cs r0 zs hdl]
    by_cases hcond : r0.takeWhile Char.isDigit ≠ []
        ∧ (r0.dropWhile Char.isDigit).head? = some ','
    · rw [if_pos hcond] at h
      simp only [Option.some.injEq, Prod.mk.injEq] at h
      obtain ⟨hn, hrest⟩ := h
      obtain ⟨hds, hhead⟩ := hcond
      cases hdw : r0.dropWhile Char.isDigit with
      | nil => rw [hdw] at hhead; simp at hhead
      | cons x t =>
        rw [hdw] at hhead hrest
        have hx : x = ',' := by simpa using hhead
        have ht : t = rest := by simpa using hrest
        obtain ⟨h1, h2⟩ := takeWhile_append_stop r0 zs hdw
        rw [h1, h2]
        rw [if_pos ⟨hds, by rw [hx]; rfl⟩]
        subst hx ht hn
        simp
    · rw [if_neg hcond] at h
      exact Option.noConfusion h

theorem matchMarker_none_append_newline {lit cs : List Char} (zs : List Char)
    (hnl : ('\n' : Char) ∉ lit) (h : matchMarker lit cs = none) :
    matchMarker lit (cs ++ '\n' :: zs) = none := by
  simp only [matchMarker] at h ⊢
  cases hdl : dropLit lit cs with
  | none => simp only [dropLit_none_newline lit cs zs hnl hdl]
  | some r0 =>
    simp only [hdl] at h
    simp only [dropLit_append lit cs r0 ('\n' :: zs) hdl]
    cases hdw : r0.dropWhile Char.isDigit with
    | nil =>
      obtain ⟨-, h2⟩ := takeWhile_append_all r0 ('\n' :: zs) hdw
      rw [h2, List.dropWhile_cons_of_neg (by decide)]
      rw [if_neg (by simp)]
    | cons x t =>
      obtain ⟨h1, h2⟩ := takeWhile_append_stop r0 ('\n' :: zs) hdw
      rw [h1, h2]
      by_cases hcond : r0.takeWhile Char.isDigit ≠ []
          ∧ (r0.dropWhile Char.isDigit).head? = some ','
      · rw [if_pos hcond] at h
        simp at h
      · rw [if_neg (by
          rw [hdw] at hcond
          simpa using hcond)]

theorem matchMarker_newline_head {lit : List Char} (b : List Char)
    (hnl : ('\n' : Char) ∉ lit) :
    matchMarker lit ('\n' :: b) = none := by
  simp only [matchMarker]
  cases lit with
  | nil =>
    simp only [dropLit]
    rw [List.takeWhile_cons_of_neg (by decide)]
    rw [if_neg (by simp)]
  | cons x ls =>
    have hne : ('\n' : Char) ≠ x := fun he => hnl (he ▸ List.mem_cons_self x ls)
    simp [dropLit, hne]

theorem scanMarks_cons_some (lit : List Char) {c : Char} {cs : List Char} {n : Nat}
    {rest : List Char} (f : Nat) (m : matchMarker lit (c :: cs) = some (n, rest)) :
    scanMarks lit (f + 1) (c :: cs) = n :: scanMarks lit f rest := by
  simp only [scanMarks, m]

theorem scanMarks_cons_none (lit : List Char) {c : Char} {cs : List Char} (f : Nat)
    (m : matchMarker lit (c :: cs) = none) :
    scanMarks lit (f + 1) (c :: cs) = scanMarks lit f cs := by
  simp only [scanMarks, m]

theorem findMark_cons_some (lit : List Char) {c : Char} {cs : List Char} {n : Nat}
    {rest : List Char} (f : Nat) (m : matchMarker lit (c :: cs) = some (n, rest)) :
    findMark lit (f + 1) (c :: cs) = some n := by
  simp only [findMark, m]

theorem findMark_cons_none (lit : List Char) {c : Char} {cs : List Char} (f : Nat)
    (m : matchMarker lit (c :: cs) = none) :
    findMark lit (f + 1) (c :: cs) = findMark lit f cs := by
  simp only [findMark, m]

theorem scanMarks_fuel (lit : List Char) :
    ∀ (f g : Nat) (cs : List Char), cs.length ≤ f → cs.length ≤ g →
      scanMarks lit f cs = scanMarks lit g cs
  | 0, g, cs, hf, hg => by
    have : cs = [] := List.length_eq_zero.mp (Nat.le_zero.mp hf)
    subst this
    cases g <;> rfl
  | f + 1, g, cs, hf, hg => by
    cases cs with
    | nil => cases g <;> rfl
    | cons c cs2 =>
      cases g with
      | zero => simp at hg
      | succ g2 =>
        cases m : matchMarker lit (c :: cs2) with
        | none =>
          simp only [scanMarks, m]
          exact scanMarks_fuel lit f g2 cs2 (by simp at hf; omega) (by simp at hg; omega)
        | some nr =>
          obtain ⟨n, rest⟩ := nr
          have hlt := matchMarker_rest_length m
          simp only [scanMarks, m]
          rw [scanMarks_fuel lit f g2 rest (by simp at hlt hf ⊢; omega)
            (by simp at hlt hg ⊢; omega)]

theorem findMark_fuel (lit : List Char) :
    ∀ (f g : Nat) (cs : List Char), cs.length ≤ f → cs.length ≤ g →
      findMark lit f cs = findMark lit g cs
  | 0, g, cs, hf, hg => by
    have : cs = [] := List.length_eq_zero.mp (Nat.le_zero.mp hf)
    subst this
    cases g <;> rfl
  | f + 1, g, cs, hf, hg => by
    cases cs with
    | nil => cases g <;> rfl
    | cons c cs2 =>
      cases g with
      | zero => simp at hg
      | succ g2 =>
        cases m : matchMarker lit (c :: cs2) with
        | none =>
          simp only [findMark, m]
          exact findMark_fuel lit f g2 cs2 (by simp at hf; omega) (by simp at hg; omega)
        | some nr =>
          simp only [findMark, m]

theorem scanMarks_newline_split {lit : List Char} (hnl : ('\n' : Char) ∉ lit) :
    ∀ (f : Nat) (a b : List Char), (a ++ '\n' :: b).length ≤ f →
      scanMarks lit f (a ++ '\n' :: b)
        = scanMarks lit a.length a ++ scanMarks lit b.length b
  | 0, a, b, h => by simp at h
  | f + 1, a, b, h => by
    cases a with
    | nil =>
      have h1 : scanMarks lit (f + 1) ('\n' :: b) = scanMarks lit f b := by
        simp only [scanMarks, matchMarker_newline_head b hnl]
      rw [List.nil_append, h1,
        scanMarks_fuel lit f b.length b (by simp at h; omega) (Nat.le_refl _)]
      rfl
    | cons c a2 =>
      rw [List.cons_append, List.length_cons]
      cases m : matchMarker lit (c :: a2) with
      | none =>
        have hext := matchMarker_none_append_newline b hnl m
        rw [List.cons_append] at hext
        rw [scanMarks_cons_none lit f hext, scanMarks_cons_none lit a2.length m]
        exact scanMarks_newline_split hnl f a2 b (by simp at h ⊢; omega)
      | some nr =>
        obtain ⟨n, rest⟩ := nr
        have hlt := matchMarker_rest_length m
        have hext := matchMarker_some_append m ('\n' :: b)
        rw [List.cons_append] at hext
        rw [scanMarks_cons_some lit f hext, scanMarks_cons_some lit a2.length m]
        rw [scanMarks_newline_split hnl f rest b (by simp at hlt h ⊢; omega),
          scanMarks_fuel lit a2.length rest.length rest
            (by simp at hlt ⊢; omega) (Nat.le_refl _)]
        rfl

theorem findMark_newline_split {lit : List Char} (hnl : ('\n' : Char) ∉ lit) :
    ∀ (f : Nat) (a b : List Char), (a ++ '\n' :: b).length ≤ f →
      findMark lit f (a ++ '\n' :: b)
        = firstSome (findMark lit a.length a) (findMark lit b.length b)
  | 0, a, b, h => by simp at h
  | f + 1, a, b, h => by
    cases a with
    | nil =>
      have h1 : findMark lit (f + 1) ('\n' :: b) = findMark lit f b := by
        simp only [findMark, matchMarker_newline_head b hnl]
      rw [List.nil_append, h1,
        findMark_fuel lit f b.length b (by simp at h; omega) (Nat.le_refl _)]
      rfl
    | cons c a2 =>
      rw [List.cons_append, List.length_cons]
      cases m : matchMarker lit (c :: a2) with
      | none =>
        have hext := matchMarker_none_append_newline b hnl m
        rw [List.cons_append] at hext
        rw [findMark_cons_none lit f hext, findMark_cons_none lit a2.length m]
        exact findMark_newline_split hnl f a2 b (by simp at h ⊢; omega)
      | some nr =>
        obtain ⟨n, rest⟩ := nr
        have hext := matchMarker_some_append m ('\n' :: b)
        rw [List.cons_append] at hext
        rw [findMark_cons_some lit f hext, findMark_cons_some lit a2.length m]
        rfl

theorem firstSome_assoc (x y z : Option Nat) :
    firstSome (firstSome x y) z = firstSome x (firstSome y z) := by
  cases x <;> rfl

theorem joinNL_data_cons (l x : String) (ls : List String) :
    (joinNL (l :: x :: ls)).data = l.data ++ '\n' :: (joinNL (x :: ls)).data := by
  show (l ++ "\n" ++ joinNL (x :: ls)).data = _
  rw [String.data_append, String.data_append]
  simp

theorem parse_chunks : ∀ lines : List String,
    (parseDownloadFrame lines).chunks = specPosts lines
  | [] => rfl
  | [l] => by
    show scanMarks ("+POST:").data (joinNL [l]).data.length (joinNL [l]).data
      = linePosts l ++ []
    rw [List.append_nil]
    rfl
  | l :: x :: ls => by
    show scanMarks ("+POST:").data (joinNL (l :: x :: ls)).data.length
        (joinNL (l :: x :: ls)).data = linePosts l ++ specPosts (x :: ls)
    rw [joinNL_data_cons l x ls,
      scanMarks_newline_split (by decide) _ l.data _ (Nat.le_refl _)]
    show linePosts l ++ (parseDownloadFrame (x :: ls)).chunks = _
    rw [parse_chunks (x :: ls)]

theorem parse_len : ∀ lines : List String,
    (parseDownloadFrame lines).declaredLen = specLen lines
  | [] => rfl
  | [l] => by
    show findMark ("+LEN:").data (joinNL [l]).data.length (joinNL [l]).data
      = firstSome (lineLen l) none
    cases h : lineLen l with
    | none => rw [show firstSome none none = none from rfl, ← h]; rfl
    | some n => rw [show firstSome (some n) none = some n from rfl, ← h]; rfl
  | l :: x :: ls => by
    show findMark ("+LEN:").data (joinNL (l :: x :: ls)).data.length
        (joinNL (l :: x :: ls)).data = firstSome (lineLen l) (specLen (x :: ls))
    rw [joinNL_data_cons l x ls,
      findMark_newline_split (by decide) _ l.data _ (Nat.le_refl _)]
    show firstSome (lineLen l) (parseDownloadFrame (x :: ls)).declaredLen = _
    rw [parse_len (x :: ls)]

theorem specPosts_append : ∀ a b : List String,
    specPosts (a ++ b) = specPosts a ++ specPosts b
  | [], b => by simp [specPosts]
  | l :: a, b => by
    show linePosts l ++ specPosts (a ++ b) = (linePosts l ++ specPosts a) ++ specPosts b
    rw [specPosts_append a b, List.append_assoc]

theorem specLen_append : ∀ a b : List String,
    specLen (a ++ b) = firstSome (specLen a) (specLen b)
  | [], b => rfl
  | l :: a, b => by
    show firstSome (lineLen l) (specLen (a ++ b))
      = firstSome (firstSome (lineLen l) (specLen a)) (specLen b)
    rw [specLen_append a b, firstSome_assoc]

/-- Claim C7: the download-frame extraction captures the declared length
from the first `+LEN:<digits>,` match and one chunk size per
`+POST:<digits>,` match with order preserved (line by line), lines matching
neither pattern are ignored, and the example response
`["+LEN:1048576,", "+POST:524288,", "+POST:524288,", "SEND OK"]` yields
declared length 1048576 and chunks `[524288, 524288]` whose sum equals the
declared length. -/
theorem parse_download_frame_spec (lines : List String) (l : String) (pre suf : List String)
    (h1 : lineLen l = none) (h2 : linePosts l = []) :
    (parseDownloadFrame lines).chunks = specPosts lines
    ∧ (parseDownloadFrame lines).declaredLen = specLen lines
    ∧ parseDownloadFrame (pre ++ l :: suf) = parseDownloadFrame (pre ++ suf)
    ∧ parseDownloadFrame ["+LEN:1048576,", "+POST:524288,", "+POST:524288,", "SEND OK"]
      = { declaredLen := some 1048576, chunks := [524288, 524288] }
    ∧ (parseDownloadFrame
        ["+LEN:1048576,", "+POST:524288,", "+POST:524288,", "SEND OK"]).declaredLen
      = some ((parseDownloadFrame
          ["+LEN:1048576,", "+POST:524288,", "+POST:524288,", "SEND OK"]).chunks.sum) := by
  refine ⟨parse_chunks lines, parse_len lines, ?_, by decide, by decide⟩
  apply DownloadFrame.ext
  · rw [parse_len, parse_len, specLen_append, specLen_append]
    rw [show specLen (l :: suf) = firstSome (lineLen l) (specLen suf) from rfl, h1]
    rfl
  · rw [parse_chunks, parse_chunks, specPosts_append, specPosts_append]
    rw [show specPosts (l :: suf) = linePosts l ++ specPosts suf from rfl, h2,
      List.nil_append]

theorem parse_download_frame_spec_witness :
    (parseDownloadFrame ["+LEN:2,", "+POST:2,"]).chunks = specPosts ["+LEN:2,", "+POST:2,"]
    ∧ (parseDownloadFrame ["+LEN:2,", "+POST:2,"]).declaredLen
      = specLen ["+LEN:2,", "+POST:2,"]
    ∧ parseDownloadFrame (["+POST:1,"] ++ "SEND OK" :: ["+POST:2,"])
      = parseDownloadFrame (["+POST:1,"] ++ ["+POST:2,"])
    ∧ parseDownloadFrame ["+LEN:1048576,", "+POST:524288,", "+POST:524288,", "SEND OK"]
      = { declaredLen := some 1048576, chunks := [524288, 524288] }
    ∧ (parseDownloadFrame
        ["+LEN:1048576,", "+POST:524288,", "+POST:524288,", "SEND OK"]).declaredLen
      = some ((parseDownloadFrame
          ["+LEN:1048576,", "+POST:524288,", "+POST:524288,", "SEND OK"]).chunks.sum) :=
  parse_download_frame_spec ["+LEN:2,", "+POST:2,"] "SEND OK" ["+POST:1,"] ["+POST:2,"]
    (by decide) (by decide)

end ATBN
